import Mathlib

/-!
Shallow embedding of the word-practice session controller implemented in
`src/unnamed/part_000` (a React page component).  The component's state
hooks become the fields of `SessionState`, its event handlers become pure
functions on that state, and the two `useEffect` blocks keyed on the
current word are folded into `wordChangeEffect`.  Randomness
(`Math.random()` inside `shuffleArray`) is made explicit as a list of
pre-drawn choices, and browser storage is modelled by `StoredCell`
(the well-formed records the session itself writes, used to mount the
machine) and `StoredCellJs` (the full unvalidated domain the load effect
can encounter, including malformed records).
-/

/-- Dataset record, from the `Word` type in the source.  The optional
`hints.tip` field is flattened to `tip`. -/
structure Word where
  id : String
  word : String
  audioUrl : String
  letters : List String
  tip : Option String
deriving DecidableEq

/-- Feedback tone, from `type FeedbackTone = "neutral" | "success" | "error"`. -/
inductive FeedbackTone
  | neutral
  | success
  | error
deriving DecidableEq

/-- Feedback record, from the `feedback` state hook `{ message, tone }`. -/
structure Feedback where
  message : String
  tone : FeedbackTone
deriving DecidableEq

/-- Status, from the `status` state hook `"idle" | "success" | "error"`. -/
inductive Status
  | idle
  | success
  | error
deriving DecidableEq

/-- Per-word mistake counters, from the `mistakes` state hook of type
`Record<string, number>`: modelled as an association list with unique keys,
looked up by first occurrence. -/
abbrev Mistakes := List (String × Nat)

/-- Reading `prev[id] ?? 0` from the mistakes record. -/
def getCount (m : Mistakes) (k : String) : Nat :=
  (m.lookup k).getD 0

/-- Writing `{ ...prev, [id]: v }`: an existing key is overwritten in place,
a fresh key is appended (JS object spread keeps the original key order). -/
def setCount : Mistakes → String → Nat → Mistakes
  | [], k, v => [(k, v)]
  | (k', v') :: rest, k, v =>
    if k' = k then (k, v) :: rest else (k', v') :: setCount rest k v

/-- Model of JS `String.prototype.toLowerCase` (ASCII case mapping),
as used on `event.key` and on the letters of `allowedLetters`. -/
def toLowerCase (s : String) : String :=
  ⟨s.data.map Char.toLower⟩

/-- Source `normalizeIndex` (lines 20-25).  JS `%` is truncated remainder,
so it is rendered with `Int.tmod`. -/
def normalizeIndex (index : Int) (total : Nat) : Int :=
  if total = 0 then 0
  else ((index.tmod total) + total).tmod total

/-- One step of the Fisher-Yates loop body: `[array[i], array[j]] = [array[j], array[i]]`.
Out-of-range indices (never produced by the source loop) leave the list unchanged. -/
def listSwap {α : Type} (a : List α) (i j : Nat) : List α :=
  match a[i]?, a[j]? with
  | some x, some y => (a.set i y).set j x
  | _, _ => a

/-- Source `shuffleArray` loop (lines 29-32), running `i` from `length - 1`
down to `1`.  The random draw `Math.floor(Math.random() * (i + 1))` always
lies in `[0, i]`; the pre-drawn choice is clamped into that range with `min`
to make this explicit. -/
def shuffleAux {α : Type} (a : List α) : Nat → List Nat → List α
  | 0, _ => a
  | i + 1, cs => shuffleAux (listSwap a (i + 1) (min (cs.headD 0) (i + 1))) i cs.tail

/-- Source `shuffleArray` (lines 27-34), with the stream of random draws
passed in explicitly. -/
def shuffleArray {α : Type} (cs : List Nat) (input : List α) : List α :=
  shuffleAux input (input.length - 1) cs

/-- Session state: the mutable state hooks of the component that the
interaction logic reads or writes (audio-busy flags are omitted; they never
feed back into the transition logic under verification). -/
structure SessionState where
  currentIndex : Int
  userInput : List String
  isLocked : Bool
  status : Status
  feedback : Feedback
  mistakes : Mistakes
  shake : Bool
  showNextPopup : Bool
  shuffledLetters : List String
deriving DecidableEq

/-- Source `currentWord = words[currentIndex]` (line 58): JS indexing
returns `undefined` outside the array bounds. -/
def currentWord (words : List Word) (i : Int) : Option Word :=
  if i < 0 then none else words[i.toNat]?

/-- Source `allowedLetters` (lines 64-66): the set of lowercased letters of
the current word, modelled as a list with the same membership. -/
def allowedLetters (words : List Word) (i : Int) : List String :=
  (((currentWord words i).map Word.letters).getD []).map toLowerCase

/-- Source `triggerShake` (lines 290-292). -/
def triggerShake (s : SessionState) : SessionState :=
  { s with shake := true }

/-- Source `handleLetterClick` (lines 208-218). -/
def handleLetterClick (words : List Word) (s : SessionState) (letter : String) : SessionState :=
  match currentWord words s.currentIndex with
  | none => s
  | some w =>
    if s.isLocked then s
    else if s.userInput.length ≥ w.word.length then triggerShake s
    else { s with userInput := s.userInput ++ [letter] }

/-- Source `handleBackspace` (lines 220-225): `prev.slice(0, prev.length - 1)`. -/
def handleBackspace (words : List Word) (s : SessionState) : SessionState :=
  match currentWord words s.currentIndex with
  | none => s
  | some _ =>
    if s.isLocked ∨ s.userInput = [] then s
    else { s with userInput := s.userInput.dropLast }

/-- Source `handleClear` (lines 227-234). -/
def handleClear (words : List Word) (s : SessionState) : SessionState :=
  match currentWord words s.currentIndex with
  | none => s
  | some _ =>
    if s.isLocked ∨ s.userInput = [] then s
    else { s with userInput := [],
                  feedback := ⟨"", FeedbackTone.neutral⟩,
                  status := Status.idle }

/-- Source line 270: `currentWord.hints?.tip ? \x7bTipp: ...\x7d : "Versuch es noch einmal."`.
JS truthiness makes an empty tip fall back to the generic message. -/
def hintText (w : Word) : String :=
  match w.tip with
  | some t => if t = "" then "Versuch es noch einmal." else "Tipp: " ++ t
  | none => "Versuch es noch einmal."

/-- Source lines 251-255: the feedback message for a length mismatch, built
from `remaining = currentWord.word.length - attempt.length`. -/
def lengthMismatchMessage (wordLen attemptLen : Nat) : String :=
  if (wordLen : Int) - (attemptLen : Int) > 0 then
    "Dir fehlen noch " ++ toString ((wordLen : Int) - (attemptLen : Int)) ++ " Buchstabe" ++
      (if (wordLen : Int) - (attemptLen : Int) = 1 then "" else "n") ++ "."
  else "Du hast zu viele Buchstaben gewählt."

/-- Source `handleCheck` (lines 236-280); `attempt = userInput.join("")`
is written out as `String.join s.userInput`. -/
def handleCheck (words : List Word) (s : SessionState) : SessionState :=
  match currentWord words s.currentIndex with
  | none => s
  | some w =>
    if s.isLocked then s
    else if (String.join s.userInput).length = 0 then
      triggerShake { s with feedback := ⟨"Fang mit einem Buchstaben an!", FeedbackTone.error⟩,
                            status := Status.error }
    else if (String.join s.userInput).length ≠ w.word.length then
      triggerShake
        { s with feedback := ⟨lengthMismatchMessage w.word.length
                                (String.join s.userInput).length, FeedbackTone.error⟩,
                 status := Status.error }
    else if String.join s.userInput = w.word then
      { s with isLocked := true, status := Status.success,
               feedback := ⟨"Richtig!", FeedbackTone.success⟩,
               showNextPopup := true }
    else
      triggerShake
        { s with feedback := ⟨"Noch nicht ganz richtig. " ++ hintText w, FeedbackTone.error⟩,
                 status := Status.error,
                 mistakes := setCount s.mistakes w.id (getCount s.mistakes w.id + 1) }

/-- Source `handleNext` (lines 282-288). -/
def handleNext (words : List Word) (s : SessionState) : SessionState :=
  if words.length = 0 then s
  else { s with showNextPopup := false,
                currentIndex := normalizeIndex (s.currentIndex + 1) words.length }

/-- Source `handleKeydown` (lines 170-194): special keys dispatch to their
handlers, then the lowercased key is appended when it is a single character
contained in `allowedLetters`. -/
def handleKeydown (words : List Word) (s : SessionState) (key : String) : SessionState :=
  match currentWord words s.currentIndex with
  | none => s
  | some _ =>
    if key = "Backspace" then handleBackspace words s
    else if key = "Enter" then handleCheck words s
    else if key = "Escape" then handleClear words s
    else if (toLowerCase key).length = 1 ∧ toLowerCase key ∈ allowedLetters words s.currentIndex then
      handleLetterClick words s (toLowerCase key)
    else s

/-- Combined effect of the two `useEffect` blocks keyed on `currentWord`
(lines 106-129 and 131-137): when the current word changes the per-word
state is reset and the tiles are re-shuffled (the second effect overwrites
the plain copy made by the first); with no current word only the tile list
is emptied. -/
def wordChangeEffect (words : List Word) (cs : List Nat) (s : SessionState) : SessionState :=
  match currentWord words s.currentIndex with
  | none => { s with shuffledLetters := [] }
  | some w =>
    { s with userInput := [], isLocked := false, status := Status.idle,
             feedback := ⟨"", FeedbackTone.neutral⟩, shake := false,
             showNextPopup := false,
             shuffledLetters := shuffleArray cs w.letters }

/-- Well-formed parse result of the stored progress record (lines 77-80):
either field may be absent, matching `parsed.index ?? 0` and
`parsed.mistakes ?? \x7b\x7d`, and a present index is an integer - the shape the
session's own save effect writes back.  The full unvalidated domain,
including malformed records, is `ParsedProgressJs` below. -/
structure ParsedProgress where
  index : Option Int
  mistakes : Option Mistakes
deriving DecidableEq

/-- Storage cell restricted to well-formed values, used to mount the
interactive session machine: no stored value, a value `JSON.parse` throws
on, or a well-formed record.  The full unvalidated domain is
`StoredCellJs` below. -/
inductive StoredCell
  | missing
  | corrupt
  | value (p : ParsedProgress)

/-- Load-progress effect (lines 70-90) on well-formed cells: the effect is
skipped for an empty dataset (line 71), a missing value leaves the initial
defaults, a parse failure is caught and also leaves the defaults, and a
record is read with its index normalized against the dataset length. -/
def loadProgress (cell : StoredCell) (total : Nat) : Int × Mistakes :=
  if total = 0 then (0, [])
  else match cell with
  | StoredCell.missing => (0, [])
  | StoredCell.corrupt => (0, [])
  | StoredCell.value p => (normalizeIndex (p.index.getD 0) total, p.mistakes.getD [])

/-- JS value found in the `index` field of a parsed progress record, as the
unvalidated read on line 81 sees it.  `absent` is a missing or `null` field
(the `?? 0` fallback applies); `intNum n` is any value whose numeric
coercion under `%` is the integer `n` (an integral number, or a numeric
string such as `"5"`); `badNum` is any value whose numeric coercion is
`NaN` or a non-integral number (a non-numeric string, a fractional number,
an object). -/
inductive StoredIndexJs
  | absent
  | intNum (n : Int)
  | badNum
deriving DecidableEq

/-- Parsed progress record with the `index` field unvalidated, matching what
`JSON.parse` can actually deliver to lines 81-83. -/
structure ParsedProgressJs where
  index : StoredIndexJs
  mistakes : Option Mistakes
deriving DecidableEq

/-- Content of the storage cell over the full domain: no stored value, a
value `JSON.parse` throws on, or any parsed record - including malformed
ones. -/
inductive StoredCellJs
  | missing
  | unparsable
  | value (p : ParsedProgressJs)
deriving DecidableEq

/-- Result of the load effect on the session: either an integer
`currentIndex` together with the loaded mistakes, or a `NaN`/fractional
`currentIndex`, under which `words[currentIndex]` is `undefined` and the
component renders the no-words view. -/
inductive LoadOutcome
  | ok (index : Int) (mistakes : Mistakes)
  | brokenIndex (mistakes : Mistakes)
deriving DecidableEq

/-- Load-progress effect (lines 70-90) over the unvalidated domain: the
effect is skipped for an empty dataset (line 71); a missing value and a
caught parse failure leave the defaults; otherwise
`normalizeIndex(parsed.index ?? 0, words.length)` is stored - `NaN` or
fractional when the index is `badNum`, since `((x % n) + n) % n` preserves
non-integral inputs for `n > 0` - and the mistakes are stored regardless. -/
def loadProgressJs (cell : StoredCellJs) (total : Nat) : LoadOutcome :=
  if total = 0 then LoadOutcome.ok 0 []
  else match cell with
  | StoredCellJs.missing => LoadOutcome.ok 0 []
  | StoredCellJs.unparsable => LoadOutcome.ok 0 []
  | StoredCellJs.value p =>
    match p.index with
    | StoredIndexJs.absent => LoadOutcome.ok (normalizeIndex 0 total) (p.mistakes.getD [])
    | StoredIndexJs.intNum j => LoadOutcome.ok (normalizeIndex j total) (p.mistakes.getD [])
    | StoredIndexJs.badNum => LoadOutcome.brokenIndex (p.mistakes.getD [])

/-- Save-progress effect (lines 92-104): `JSON.stringify` writes the
session's integer `currentIndex` and its mistakes record, so a record the
app itself wrote parses back with an integral index. -/
def saveProgressJs (index : Int) (mistakes : Mistakes) : ParsedProgressJs :=
  ⟨StoredIndexJs.intNum index, some mistakes⟩

/-- State after mounting: the hooks' initial values, the load effect, and
the word-change effects for the (possibly restored) current word. -/
def initState (words : List Word) (cell : StoredCell) (cs : List Nat) : SessionState :=
  let p := loadProgress cell words.length
  wordChangeEffect words cs
    { currentIndex := p.1, userInput := [], isLocked := false, status := Status.idle,
      feedback := ⟨"", FeedbackTone.neutral⟩, mistakes := p.2, shake := false,
      showNextPopup := false, shuffledLetters := [] }

/-- User-interface events that can reach the handlers.  A tile click only
exists for a letter currently rendered in `shuffledLetters`, and the
advance button only exists while `showNextPopup` is true (it is rendered
inside the success popup). -/
inductive Op
  | clickTile (letter : String)
  | pressKey (key : String)
  | clickBackspace
  | clickCheck
  | clickClear
  | clickNext (cs : List Nat)

/-- Dispatch of one user event.  Advancing re-runs the word-change effects
exactly when `currentWord` actually changed (its object identity is the
effect dependency), which with a fixed dataset means the index changed. -/
def step (words : List Word) (s : SessionState) : Op → SessionState
  | Op.clickTile l => if l ∈ s.shuffledLetters then handleLetterClick words s l else s
  | Op.pressKey k => handleKeydown words s k
  | Op.clickBackspace => handleBackspace words s
  | Op.clickCheck => handleCheck words s
  | Op.clickClear => handleClear words s
  | Op.clickNext cs =>
    if s.showNextPopup then
      let t := handleNext words s
      if t.currentIndex = s.currentIndex then t else wordChangeEffect words cs t
    else s

/-- States reachable in a session over a fixed dataset: a mounted initial
state followed by any sequence of user events. -/
inductive Reachable (words : List Word) : SessionState → Prop
  | init (cell : StoredCell) (cs : List Nat) : Reachable words (initState words cell cs)
  | step {s : SessionState} (op : Op) : Reachable words s → Reachable words (step words s op)
theorem tmod_lower_bound (x n : Int) (hn : 0 < n) : -n < x.tmod n := by
  cases x with
  | ofNat m =>
      have h0 : (0:Int) ≤ (Int.ofNat m).tmod n := Int.tmod_nonneg n (Int.ofNat_nonneg m)
      linarith
  | negSucc m =>
      cases n with
      | ofNat k =>
          have he : (Int.negSucc m).tmod (Int.ofNat k) = -(((m+1) % k : Nat) : Int) := rfl
          simp only [Int.ofNat_eq_natCast] at hn he ⊢
          have hk : 0 < k := by exact_mod_cast hn
          rw [he]
          have := Nat.mod_lt (m+1) hk
          omega
      | negSucc k =>
          have := Int.negSucc_lt_zero k
          linarith

theorem normalizeIndex_eq_emod (x : Int) (n : Nat) (hn : 0 < n) :
    normalizeIndex x n = x % (n : Int) := by
  have hn' : (0:Int) < n := by exact_mod_cast hn
  have hlow := tmod_lower_bound x n hn'
  have hre : x.tmod n = x + (n:Int) * (-(x.tdiv n)) := by
    linear_combination Int.tmod_add_tdiv x (n:Int)
  have hmod : x.tmod n % (n:Int) = x % n := by
    rw [hre, Int.add_mul_emod_self_left]
  unfold normalizeIndex
  rw [if_neg (Nat.pos_iff_ne_zero.mp hn)]
  rw [Int.tmod_eq_emod (by linarith) (by linarith)]
  have h2 : (x.tmod ↑n + ↑n) % (↑n : Int) = x.tmod ↑n % ↑n := by
    simp
  rw [h2, hmod]

theorem lookup_setCount (m : Mistakes) (k : String) (v : Nat) :
    (setCount m k v).lookup k = some v := by
  induction m with
  | nil => simp [setCount]
  | cons p rest ih =>
      obtain ⟨k', v'⟩ := p
      by_cases h : k' = k
      · subst h
        simp [setCount]
      · have hb : (k == k') = false := beq_eq_false_iff_ne.mpr (Ne.symm h)
        simp [setCount, h, List.lookup, hb, ih]

theorem getCount_setCount (m : Mistakes) (k : String) (v : Nat) :
    getCount (setCount m k v) k = v := by
  simp [getCount, lookup_setCount]

theorem cons_set_perm {α : Type} :
    ∀ (xs : List α) (k : Nat) (x b : α), xs[k]? = some b →
      (b :: xs.set k x).Perm (x :: xs) := by
  intro xs
  induction xs with
  | nil => intro k x b h; simp at h
  | cons y t ih =>
      intro k x b h
      cases k with
      | zero =>
          simp at h
          subst h
          simpa using List.Perm.swap x y t
      | succ k =>
          simp at h
          have h1 := ih k x b h
          have e : (y :: t).set (k+1) x = y :: t.set k x := by simp
          rw [e]
          exact ((List.Perm.swap y b (t.set k x)).trans (h1.cons y)).trans
            (List.Perm.swap x y t)

theorem set_set_perm {α : Type} :
    ∀ (a : List α) (i j : Nat) (x y : α), a[i]? = some x → a[j]? = some y →
      ((a.set i y).set j x).Perm a := by
  intro a
  induction a with
  | nil => intro i j x y hi hj; simp at hi
  | cons z t ih =>
      intro i j x y hi hj
      cases i with
      | zero =>
          simp at hi
          subst hi
          cases j with
          | zero =>
              simp at hj
              subst hj
              simp
          | succ j =>
              simp at hj
              simpa using cons_set_perm t j z y hj
      | succ i =>
          simp at hi
          cases j with
          | zero =>
              simp at hj
              subst hj
              simpa using cons_set_perm t i z x hi
          | succ j =>
              simp at hj
              simpa using (ih i j x y hi hj).cons z

theorem listSwap_perm {α : Type} (a : List α) (i j : Nat) : (listSwap a i j).Perm a := by
  rcases hi : a[i]? with _ | x
  · simp only [listSwap, hi]
    exact List.Perm.refl a
  · rcases hj : a[j]? with _ | y
    · simp only [listSwap, hi, hj]
      exact List.Perm.refl a
    · simp only [listSwap, hi, hj]
      exact set_set_perm a i j x y hi hj

theorem shuffleAux_perm {α : Type} :
    ∀ (i : Nat) (a : List α) (cs : List Nat), (shuffleAux a i cs).Perm a := by
  intro i
  induction i with
  | zero => intro a cs; exact List.Perm.refl a
  | succ k ih =>
      intro a cs
      exact (ih _ _).trans (listSwap_perm a (k+1) (min (cs.headD 0) (k+1)))

theorem shuffleArray_perm {α : Type} (cs : List Nat) (l : List α) :
    (shuffleArray cs l).Perm l :=
  shuffleAux_perm (l.length - 1) l cs

/-- Session invariant: the advance popup is only shown while locked, the
rendered tiles are letters of the current word, and every chosen letter is
a letter of the current word either verbatim (tile click) or as the
lowercase form of one (keyboard input). -/
def SessionInv (words : List Word) (s : SessionState) : Prop :=
  (s.showNextPopup = true → s.isLocked = true) ∧
  ∀ w, currentWord words s.currentIndex = some w →
    (∀ l ∈ s.shuffledLetters, l ∈ w.letters) ∧
    (∀ l ∈ s.userInput, l ∈ w.letters ∨ l ∈ w.letters.map toLowerCase)

theorem sessionInv_of_fields (words : List Word) (s t : SessionState) (h : SessionInv words s)
    (hpl : t.showNextPopup = true → t.isLocked = true)
    (hidx : t.currentIndex = s.currentIndex)
    (hshuf : t.shuffledLetters = s.shuffledLetters)
    (hinp : ∀ l ∈ t.userInput, l ∈ s.userInput) :
    SessionInv words t := by
  obtain ⟨hp, hw⟩ := h
  refine ⟨hpl, ?_⟩
  intro w hcw
  rw [hidx] at hcw
  obtain ⟨h1, h2⟩ := hw w hcw
  constructor
  · rw [hshuf]; exact h1
  · intro l hl
    exact h2 l (hinp l hl)

theorem sessionInv_handleLetterClick (words : List Word) (s : SessionState) (l : String)
    (h : SessionInv words s)
    (hl : ∀ w, currentWord words s.currentIndex = some w →
        l ∈ w.letters ∨ l ∈ w.letters.map toLowerCase) :
    SessionInv words (handleLetterClick words s l) := by
  unfold handleLetterClick
  rcases hcw : currentWord words s.currentIndex with _ | w
  · simpa only [hcw] using h
  · simp only [hcw]
    split
    · exact h
    · split
      · exact sessionInv_of_fields words s _ h (fun hp => h.1 hp) rfl rfl (fun x hx => hx)
      · obtain ⟨hp, hw⟩ := h
        refine ⟨hp, ?_⟩
        intro w' hcw'
        dsimp only at hcw'
        rw [hcw] at hcw'
        injection hcw' with e
        subst e
        obtain ⟨h1, h2⟩ := hw w hcw
        constructor
        · exact h1
        · intro x hx
          rcases List.mem_append.mp hx with hx1 | hx2
          · exact h2 x hx1
          · rw [List.mem_singleton.mp hx2]
            exact hl w hcw

theorem sessionInv_handleBackspace (words : List Word) (s : SessionState)
    (h : SessionInv words s) :
    SessionInv words (handleBackspace words s) := by
  unfold handleBackspace
  rcases hcw : currentWord words s.currentIndex with _ | w
  · simpa only [hcw] using h
  · simp only [hcw]
    split
    · exact h
    · exact sessionInv_of_fields words s _ h (fun hp => h.1 hp) rfl rfl
        (fun x hx => List.dropLast_subset _ hx)

theorem sessionInv_handleClear (words : List Word) (s : SessionState)
    (h : SessionInv words s) :
    SessionInv words (handleClear words s) := by
  unfold handleClear
  rcases hcw : currentWord words s.currentIndex with _ | w
  · simpa only [hcw] using h
  · simp only [hcw]
    split
    · exact h
    · exact sessionInv_of_fields words s _ h (fun hp => h.1 hp) rfl rfl
        (fun x hx => by simp at hx)

theorem sessionInv_handleCheck (words : List Word) (s : SessionState)
    (h : SessionInv words s) :
    SessionInv words (handleCheck words s) := by
  unfold handleCheck
  rcases hcw : currentWord words s.currentIndex with _ | w
  · simpa only [hcw] using h
  · simp only [hcw]
    split
    · exact h
    · split
      · exact sessionInv_of_fields words s _ h (fun hp => h.1 hp) rfl rfl (fun x hx => hx)
      · split
        · exact sessionInv_of_fields words s _ h (fun hp => h.1 hp) rfl rfl (fun x hx => hx)
        · split
          · exact sessionInv_of_fields words s _ h (fun _ => rfl) rfl rfl (fun x hx => hx)
          · exact sessionInv_of_fields words s _ h (fun hp => h.1 hp) rfl rfl (fun x hx => hx)

theorem sessionInv_wordChangeEffect (words : List Word) (cs : List Nat) (s : SessionState)
    (hpop : s.showNextPopup = false) :
    SessionInv words (wordChangeEffect words cs s) := by
  unfold wordChangeEffect
  rcases hcw : currentWord words s.currentIndex with _ | w
  · refine ⟨?_, ?_⟩
    · intro hp
      dsimp only at hp
      rw [hpop] at hp
      cases hp
    · intro w' hcw'
      dsimp only at hcw'
      rw [hcw] at hcw'
      cases hcw'
  · refine ⟨?_, ?_⟩
    · intro hp
      dsimp only at hp
      cases hp
    · intro w' hcw'
      dsimp only at hcw'
      rw [hcw] at hcw'
      injection hcw' with e
      subst e
      constructor
      · intro l hl
        dsimp only at hl
        exact (shuffleArray_perm cs w.letters).subset hl
      · intro l hl
        dsimp only at hl
        simp at hl

theorem sessionInv_handleKeydown (words : List Word) (s : SessionState) (key : String)
    (h : SessionInv words s) :
    SessionInv words (handleKeydown words s key) := by
  unfold handleKeydown
  rcases hcw : currentWord words s.currentIndex with _ | w
  · simpa only [hcw] using h
  · simp only [hcw]
    split
    · exact sessionInv_handleBackspace words s h
    · split
      · exact sessionInv_handleCheck words s h
      · split
        · exact sessionInv_handleClear words s h
        · split
          · next hg =>
              apply sessionInv_handleLetterClick words s _ h
              intro w' hcw'
              rw [hcw] at hcw'
              injection hcw' with e
              subst e
              right
              have hm := hg.2
              rw [allowedLetters, hcw] at hm
              simpa using hm
          · exact h

theorem sessionInv_step (words : List Word) (s : SessionState) (h : SessionInv words s)
    (op : Op) :
    SessionInv words (step words s op) := by
  cases op with
  | clickTile l =>
      change SessionInv words (if l ∈ s.shuffledLetters then handleLetterClick words s l else s)
      split
      · next hmem =>
          apply sessionInv_handleLetterClick words s l h
          intro w hcw
          left
          exact (h.2 w hcw).1 l hmem
      · exact h
  | pressKey k => exact sessionInv_handleKeydown words s k h
  | clickBackspace => exact sessionInv_handleBackspace words s h
  | clickCheck => exact sessionInv_handleCheck words s h
  | clickClear => exact sessionInv_handleClear words s h
  | clickNext cs =>
      change SessionInv words
        (if s.showNextPopup = true then
          (if (handleNext words s).currentIndex = s.currentIndex then handleNext words s
           else wordChangeEffect words cs (handleNext words s))
         else s)
      split
      · next hpopup =>
          split
          · next hsame =>
              unfold handleNext at hsame ⊢
              split
              · exact h
              · next hlen =>
                  rw [if_neg hlen] at hsame
                  exact sessionInv_of_fields words s _ h (fun hp => by cases hp) hsame rfl
                    (fun x hx => hx)
          · next hdiff =>
              apply sessionInv_wordChangeEffect
              unfold handleNext
              split
              · next hlen =>
                  exfalso
                  apply hdiff
                  unfold handleNext
                  rw [if_pos hlen]
              · rfl
      · exact h

theorem reachable_sessionInv (words : List Word) (s : SessionState) (h : Reachable words s) :
    SessionInv words s := by
  induction h with
  | init cell cs => exact sessionInv_wordChangeEffect words cs _ rfl
  | step op hr ih => exact sessionInv_step words _ ih op

/-! Concrete sample data used by closed counterexamples and witnesses. -/

/-- Sample dataset entry in the shape of `data/words.json`. -/
def hundWord : Word := ⟨"w1", "hund", "audio/hund.mp3", ["h", "u", "n", "d"], none⟩

/-- Single-letter dataset entry, used to reach a locked state quickly. -/
def aWord : Word := ⟨"w0", "a", "audio/a.mp3", ["a"], none⟩

/-- Degenerate dataset entry with an empty target spelling. -/
def emptyWord : Word := ⟨"w2", "", "audio/leer.mp3", [], none⟩

/-- Dataset entry whose letters carry an uppercase initial. -/
def capWord : Word := ⟨"w3", "Hund", "audio/hund2.mp3", ["H", "u", "n", "d"], none⟩

/-- Dataset entry with a hint. -/
def tippWord : Word := ⟨"w4", "hund", "audio/hund3.mp3", ["h", "u", "n", "d"],
  some "Am Ende steht ein d"⟩

def hundList : List Word := [hundWord]

def demoState : SessionState := initState hundList StoredCell.missing []

def c5s1 : SessionState := step hundList demoState (Op.clickTile "h")

def c5s2 : SessionState := step hundList c5s1 (Op.clickTile "h")

def wordsPair : List Word := [aWord, hundWord]

def pairStart : SessionState := initState wordsPair StoredCell.missing []

def pairTyped : SessionState := step wordsPair pairStart (Op.clickTile "a")

def pairChecked : SessionState := step wordsPair pairTyped Op.clickCheck

def pairAdvanced : SessionState := step wordsPair pairChecked (Op.clickNext [3, 2, 1])

def emptyWordList : List Word := [emptyWord]

def emptyStart : SessionState := initState emptyWordList StoredCell.missing []

/-- Hand-built state with the full correct attempt typed in. -/
def typedState : SessionState :=
  ⟨0, ["h", "u", "n", "d"], false, Status.idle, ⟨"", FeedbackTone.neutral⟩, [], false, false,
    ["u", "n", "d", "h"]⟩

/-- Hand-built state with a same-length wrong attempt typed in. -/
def wrongState : SessionState :=
  ⟨0, ["h", "u", "d", "n"], false, Status.idle, ⟨"", FeedbackTone.neutral⟩, [("w4", 2)], false,
    false, ["u", "n", "d", "h"]⟩

/-- Hand-built state with a too-short attempt typed in. -/
def shortState : SessionState :=
  ⟨0, ["h", "u"], false, Status.idle, ⟨"", FeedbackTone.neutral⟩, [], false, false,
    ["u", "n", "d", "h"]⟩

/-- Hand-built state over `capWord` with nothing typed yet. -/
def capState : SessionState := initState [capWord] StoredCell.missing [0, 1, 2]

/-- C1 counterexample: with an empty target spelling the (empty) attempt equals
the target, yet `check()` takes the empty-attempt branch: it reports an error
and does not lock. -/
theorem c1_counterexample :
    currentWord emptyWordList emptyStart.currentIndex = some emptyWord ∧
    emptyStart.isLocked = false ∧
    String.join emptyStart.userInput = emptyWord.word ∧
    (handleCheck emptyWordList emptyStart).isLocked = false ∧
    (handleCheck emptyWordList emptyStart).status = Status.error ∧
    (handleCheck emptyWordList emptyStart).feedback
      = ⟨"Fang mit einem Buchstaben an!", FeedbackTone.error⟩ := by
  refine ⟨by decide, by decide, by decide, by decide, by decide, by decide⟩

/-- C1 (amended with a nonempty target): checking an attempt equal to the
current word's nonempty target spelling while not locked locks the session,
sets success status and feedback, shows the advance popup, and leaves the
mistake record untouched. -/
theorem c1_correct_check_locks (words : List Word) (s : SessionState) (w : Word)
    (hcw : currentWord words s.currentIndex = some w)
    (hlock : s.isLocked = false)
    (hne : w.word ≠ "")
    (heq : String.join s.userInput = w.word) :
    handleCheck words s
      = { s with isLocked := true, status := Status.success,
                 feedback := ⟨"Richtig!", FeedbackTone.success⟩, showNextPopup := true } ∧
    (handleCheck words s).mistakes = s.mistakes := by
  have hres : handleCheck words s
      = { s with isLocked := true, status := Status.success,
                 feedback := ⟨"Richtig!", FeedbackTone.success⟩, showNextPopup := true } := by
    unfold handleCheck
    simp only [hcw]
    rw [heq]
    rw [if_neg (by simp [hlock])]
    rw [if_neg (show ¬ (w.word.length = 0) from
      fun h0 => hne (String.ext (List.length_eq_zero.mp h0)))]
    rw [if_neg (fun hc => hc rfl)]
    rw [if_pos rfl]
  exact ⟨hres, by rw [hres]⟩

theorem c1_witness :
    currentWord hundList typedState.currentIndex = some hundWord ∧
    typedState.isLocked = false ∧
    hundWord.word ≠ "" ∧
    String.join typedState.userInput = hundWord.word ∧
    (handleCheck hundList typedState
        = { typedState with isLocked := true, status := Status.success,
                            feedback := ⟨"Richtig!", FeedbackTone.success⟩,
                            showNextPopup := true } ∧
      (handleCheck hundList typedState).mistakes = typedState.mistakes) :=
  ⟨by decide, by decide, by decide, by decide,
    c1_correct_check_locks hundList typedState hundWord (by decide) (by decide) (by decide)
      (by decide)⟩

/-- C2: checking a same-length, non-matching attempt while not locked
increments that word's mistake counter by exactly one, leaves the session
unlocked, and sets error feedback carrying the word's hint when a nonempty
hint exists and a generic retry message otherwise. -/
theorem c2_mismatch_increments (words : List Word) (s : SessionState) (w : Word)
    (hcw : currentWord words s.currentIndex = some w)
    (hlock : s.isLocked = false)
    (hlen : (String.join s.userInput).length = w.word.length)
    (hne : String.join s.userInput ≠ w.word) :
    handleCheck words s
      = triggerShake
          { s with feedback := ⟨"Noch nicht ganz richtig. " ++ hintText w, FeedbackTone.error⟩,
                   status := Status.error,
                   mistakes := setCount s.mistakes w.id (getCount s.mistakes w.id + 1) } ∧
    getCount (handleCheck words s).mistakes w.id = getCount s.mistakes w.id + 1 ∧
    (handleCheck words s).isLocked = false ∧
    (w.tip = none →
      (handleCheck words s).feedback.message
        = "Noch nicht ganz richtig. Versuch es noch einmal.") ∧
    (∀ t, w.tip = some t → t ≠ "" →
      (handleCheck words s).feedback.message = "Noch nicht ganz richtig. Tipp: " ++ t) := by
  have hlen0 : (String.join s.userInput).length ≠ 0 := by
    intro h0
    apply hne
    have hw0 : w.word.length = 0 := by omega
    have e1 : String.join s.userInput = "" := String.ext (List.length_eq_zero.mp h0)
    have e2 : w.word = "" := String.ext (List.length_eq_zero.mp hw0)
    rw [e1, e2]
  have hres : handleCheck words s
      = triggerShake
          { s with feedback := ⟨"Noch nicht ganz richtig. " ++ hintText w, FeedbackTone.error⟩,
                   status := Status.error,
                   mistakes := setCount s.mistakes w.id (getCount s.mistakes w.id + 1) } := by
    unfold handleCheck
    simp only [hcw]
    rw [if_neg (by simp [hlock])]
    rw [if_neg hlen0]
    rw [if_neg (fun hc => hc hlen)]
    rw [if_neg hne]
  refine ⟨hres, ?_, ?_, ?_, ?_⟩
  · rw [hres]
    exact getCount_setCount s.mistakes w.id (getCount s.mistakes w.id + 1)
  · rw [hres]
    exact hlock
  · intro htip
    rw [hres]
    show "Noch nicht ganz richtig. " ++ hintText w = _
    rw [hintText, htip]
    rfl
  · intro t htip htne
    rw [hres]
    show "Noch nicht ganz richtig. " ++ hintText w = _
    rw [hintText, htip]
    dsimp only
    rw [if_neg htne, ← String.append_assoc]
    rfl

theorem c2_witness :
    currentWord [tippWord] wrongState.currentIndex = some tippWord ∧
    wrongState.isLocked = false ∧
    (String.join wrongState.userInput).length = tippWord.word.length ∧
    String.join wrongState.userInput ≠ tippWord.word ∧
    (handleCheck [tippWord] wrongState
        = triggerShake
            { wrongState with
                feedback := ⟨"Noch nicht ganz richtig. " ++ hintText tippWord,
                  FeedbackTone.error⟩,
                status := Status.error,
                mistakes := setCount wrongState.mistakes tippWord.id
                  (getCount wrongState.mistakes tippWord.id + 1) } ∧
      getCount (handleCheck [tippWord] wrongState).mistakes tippWord.id
        = getCount wrongState.mistakes tippWord.id + 1 ∧
      (handleCheck [tippWord] wrongState).isLocked = false ∧
      (tippWord.tip = none →
        (handleCheck [tippWord] wrongState).feedback.message
          = "Noch nicht ganz richtig. Versuch es noch einmal.") ∧
      (∀ t, tippWord.tip = some t → t ≠ "" →
        (handleCheck [tippWord] wrongState).feedback.message
          = "Noch nicht ganz richtig. Tipp: " ++ t)) :=
  ⟨by decide, by decide, by decide, by decide,
    c2_mismatch_increments [tippWord] wrongState tippWord (by decide) (by decide) (by decide)
      (by decide)⟩

/-- C3: while the dataset is nonempty, `handleNext` moves the index to its
successor modulo the dataset length (the wrapped `((x % n) + n) % n` form of
`normalizeIndex` agrees with the mathematical remainder for any integer
starting value), and from the last position it wraps to `0`. -/
theorem c3_advance_wraps (words : List Word) (s : SessionState) (hn : 0 < words.length) :
    (handleNext words s).currentIndex = (s.currentIndex + 1) % (words.length : Int) ∧
    (s.currentIndex = (words.length : Int) - 1 → (handleNext words s).currentIndex = 0) := by
  have hidx : (handleNext words s).currentIndex
      = normalizeIndex (s.currentIndex + 1) words.length := by
    unfold handleNext
    rw [if_neg (Nat.pos_iff_ne_zero.mp hn)]
  constructor
  · rw [hidx, normalizeIndex_eq_emod _ _ hn]
  · intro hlast
    rw [hidx, normalizeIndex_eq_emod _ _ hn, hlast]
    simp

theorem c3_witness :
    0 < wordsPair.length ∧
    ((handleNext wordsPair pairChecked).currentIndex
        = (pairChecked.currentIndex + 1) % (wordsPair.length : Int) ∧
      (pairChecked.currentIndex = (wordsPair.length : Int) - 1 →
        (handleNext wordsPair pairChecked).currentIndex = 0)) :=
  ⟨by decide, c3_advance_wraps wordsPair pairChecked (by decide)⟩

/-- C4 counterexample: a parsable but malformed stored record - here one
whose index field does not coerce to an integer, such as a stored
`index: "abc"` or `index: 2.5` - is read unvalidated: `normalizeIndex`
yields a `NaN`/fractional `currentIndex`, so loading neither falls back to
index 0 with an empty map nor uses any wrapped integer index, and the
session shows the no-words view. -/
theorem c4_counterexample :
    loadProgressJs (StoredCellJs.value ⟨StoredIndexJs.badNum, some [("w1", 3)]⟩) 3
      = LoadOutcome.brokenIndex [("w1", 3)] ∧
    loadProgressJs (StoredCellJs.value ⟨StoredIndexJs.badNum, some [("w1", 3)]⟩) 3
      ≠ LoadOutcome.ok 0 [] :=
  ⟨by decide, by decide⟩

/-- C4 (amended): a record saved by the session itself round-trips exactly -
reloading restores that index and mistake map; a missing or unparsable
(`JSON.parse` throws) stored value falls back to index 0 and an empty map
without aborting; and a stored index that coerces to an integer is
normalized (wrapped modulo the dataset length) before use.  A parsable
record whose index does not coerce to an integer is read unvalidated and
yields a broken (`NaN`/fractional) index instead of the fallback. -/
theorem c4_persistence_roundtrip (i : Int) (m : Mistakes) (n : Nat)
    (h0 : 0 ≤ i) (h1 : i < (n : Int)) :
    loadProgressJs (StoredCellJs.value (saveProgressJs i m)) n = LoadOutcome.ok i m ∧
    loadProgressJs StoredCellJs.missing n = LoadOutcome.ok 0 [] ∧
    loadProgressJs StoredCellJs.unparsable n = LoadOutcome.ok 0 [] ∧
    ∀ (j : Int) (m' : Mistakes),
      loadProgressJs (StoredCellJs.value ⟨StoredIndexJs.intNum j, some m'⟩) n
        = LoadOutcome.ok (normalizeIndex j n) m' := by
  have hn0 : n ≠ 0 := by omega
  refine ⟨?_, ?_, ?_, ?_⟩
  · have he : loadProgressJs (StoredCellJs.value (saveProgressJs i m)) n
        = LoadOutcome.ok (normalizeIndex i n) m := by
      unfold loadProgressJs saveProgressJs
      rw [if_neg hn0]
      rfl
    rw [he, normalizeIndex_eq_emod i n (by omega), Int.emod_eq_of_lt h0 h1]
  · unfold loadProgressJs
    rw [if_neg hn0]
  · unfold loadProgressJs
    rw [if_neg hn0]
  · intro j m'
    unfold loadProgressJs
    rw [if_neg hn0]
    rfl

theorem c4_witness :
    (0 : Int) ≤ 2 ∧ (2 : Int) < ((3 : Nat) : Int) ∧
    (loadProgressJs (StoredCellJs.value (saveProgressJs 2 [("w1", 3)])) 3
        = LoadOutcome.ok 2 [("w1", 3)] ∧
      loadProgressJs StoredCellJs.missing 3 = LoadOutcome.ok 0 [] ∧
      loadProgressJs StoredCellJs.unparsable 3 = LoadOutcome.ok 0 [] ∧
      ∀ (j : Int) (m' : Mistakes),
        loadProgressJs (StoredCellJs.value ⟨StoredIndexJs.intNum j, some m'⟩) 3
          = LoadOutcome.ok (normalizeIndex j 3) m') :=
  ⟨by decide, by decide, c4_persistence_roundtrip 2 [("w1", 3)] 3 (by decide) (by decide)⟩

/-- C5 counterexample: clicking the same tile twice duplicates its letter, so
the attempt can contain a letter more often than the current word's letters
list does — the multiset bound in the claim fails on a reachable state. -/
theorem c5_counterexample :
    Reachable hundList c5s2 ∧
    currentWord hundList c5s2.currentIndex = some hundWord ∧
    c5s2.userInput.count "h" = 2 ∧
    hundWord.letters.count "h" = 1 := by
  refine ⟨?_, by decide, by decide, by decide⟩
  exact Reachable.step (Op.clickTile "h")
    (Reachable.step (Op.clickTile "h") (Reachable.init StoredCell.missing []))

/-- C5 (amended to set membership): in every reachable state, each letter of
the attempt is a letter of the current word's letter list — verbatim for
tile clicks, or the lowercase form of one for keyboard input.  Multiplicity
is not bounded. -/
theorem c5_attempt_letters (words : List Word) (s : SessionState)
    (hr : Reachable words s) (w : Word)
    (hcw : currentWord words s.currentIndex = some w) :
    ∀ l ∈ s.userInput, l ∈ w.letters ∨ l ∈ w.letters.map toLowerCase :=
  fun l hl => ((reachable_sessionInv words s hr).2 w hcw).2 l hl

theorem c5_witness :
    Reachable hundList c5s1 ∧
    currentWord hundList c5s1.currentIndex = some hundWord ∧
    ∀ l ∈ c5s1.userInput, l ∈ hundWord.letters ∨ l ∈ hundWord.letters.map toLowerCase :=
  ⟨Reachable.step (Op.clickTile "h") (Reachable.init StoredCell.missing []),
    by decide,
    c5_attempt_letters hundList c5s1
      (Reachable.step (Op.clickTile "h") (Reachable.init StoredCell.missing []))
      hundWord (by decide)⟩

/-- C6: `handleLetterClick` never grows the attempt beyond the target word's
length — when the attempt is already at (or beyond) that length it only
fires the shake cue, and when locked it is a complete no-op. -/
theorem c6_append_bounded (words : List Word) (s : SessionState) (w : Word) (l : String)
    (hcw : currentWord words s.currentIndex = some w) :
    (s.isLocked = true → handleLetterClick words s l = s) ∧
    (s.isLocked = false → w.word.length ≤ s.userInput.length →
      handleLetterClick words s l = triggerShake s) ∧
    (s.userInput.length ≤ w.word.length →
      (handleLetterClick words s l).userInput.length ≤ w.word.length) := by
  unfold handleLetterClick
  simp only [hcw]
  refine ⟨?_, ?_, ?_⟩
  · intro h
    rw [if_pos h]
  · intro h hlen
    rw [if_neg (by simp [h]), if_pos hlen]
  · intro hlen
    split
    · exact hlen
    · split
      · exact hlen
      · next h1 h2 =>
          simp only [List.length_append, List.length_singleton]
          omega

theorem c6_witness :
    currentWord hundList c5s2.currentIndex = some hundWord ∧
    ((c5s2.isLocked = true → handleLetterClick hundList c5s2 "u" = c5s2) ∧
      (c5s2.isLocked = false → hundWord.word.length ≤ c5s2.userInput.length →
        handleLetterClick hundList c5s2 "u" = triggerShake c5s2) ∧
      (c5s2.userInput.length ≤ hundWord.word.length →
        (handleLetterClick hundList c5s2 "u").userInput.length ≤ hundWord.word.length)) :=
  ⟨by decide, c6_append_bounded hundList c5s2 hundWord "u" (by decide)⟩

/-- C7: checking a nonempty attempt whose length differs from the target
reports the exact missing count (pluralized) when too short or the
too-many message when too long, and changes nothing besides feedback,
status and the shake cue. -/
theorem c7_length_mismatch_frame (words : List Word) (s : SessionState) (w : Word)
    (hcw : currentWord words s.currentIndex = some w)
    (hlock : s.isLocked = false)
    (hne0 : (String.join s.userInput).length ≠ 0)
    (hdiff : (String.join s.userInput).length ≠ w.word.length) :
    handleCheck words s
      = triggerShake
          { s with feedback := ⟨lengthMismatchMessage w.word.length
                                  (String.join s.userInput).length, FeedbackTone.error⟩,
                   status := Status.error } ∧
    (handleCheck words s).mistakes = s.mistakes ∧
    (handleCheck words s).isLocked = false ∧
    (handleCheck words s).userInput = s.userInput ∧
    (handleCheck words s).currentIndex = s.currentIndex ∧
    ((String.join s.userInput).length < w.word.length →
      (handleCheck words s).feedback.message
        = "Dir fehlen noch "
            ++ toString ((w.word.length : Int) - ((String.join s.userInput).length : Int))
            ++ " Buchstabe"
            ++ (if ((w.word.length : Int) - ((String.join s.userInput).length : Int)) = 1
                then "" else "n")
            ++ ".") ∧
    (w.word.length < (String.join s.userInput).length →
      (handleCheck words s).feedback.message = "Du hast zu viele Buchstaben gewählt.") := by
  have hres : handleCheck words s
      = triggerShake
          { s with feedback := ⟨lengthMismatchMessage w.word.length
                                  (String.join s.userInput).length, FeedbackTone.error⟩,
                   status := Status.error } := by
    unfold handleCheck
    simp only [hcw]
    rw [if_neg (by simp [hlock]), if_neg hne0, if_pos hdiff]
  refine ⟨hres, by rw [hres]; rfl, by rw [hres]; exact hlock, by rw [hres]; rfl,
    by rw [hres]; rfl, ?_, ?_⟩
  · intro hlt
    rw [hres]
    show lengthMismatchMessage w.word.length (String.join s.userInput).length = _
    unfold lengthMismatchMessage
    rw [if_pos (by omega)]
  · intro hgt
    rw [hres]
    show lengthMismatchMessage w.word.length (String.join s.userInput).length = _
    unfold lengthMismatchMessage
    rw [if_neg (by omega)]

theorem c7_witness :
    currentWord hundList shortState.currentIndex = some hundWord ∧
    shortState.isLocked = false ∧
    (String.join shortState.userInput).length ≠ 0 ∧
    (String.join shortState.userInput).length ≠ hundWord.word.length ∧
    (handleCheck hundList shortState
        = triggerShake
            { shortState with
                feedback := ⟨lengthMismatchMessage hundWord.word.length
                    (String.join shortState.userInput).length, FeedbackTone.error⟩,
                status := Status.error } ∧
      (handleCheck hundList shortState).mistakes = shortState.mistakes ∧
      (handleCheck hundList shortState).isLocked = false ∧
      (handleCheck hundList shortState).userInput = shortState.userInput ∧
      (handleCheck hundList shortState).currentIndex = shortState.currentIndex ∧
      ((String.join shortState.userInput).length < hundWord.word.length →
        (handleCheck hundList shortState).feedback.message
          = "Dir fehlen noch "
              ++ toString ((hundWord.word.length : Int)
                  - ((String.join shortState.userInput).length : Int))
              ++ " Buchstabe"
              ++ (if ((hundWord.word.length : Int)
                      - ((String.join shortState.userInput).length : Int)) = 1
                  then "" else "n")
              ++ ".") ∧
      (hundWord.word.length < (String.join shortState.userInput).length →
        (handleCheck hundList shortState).feedback.message
          = "Du hast zu viele Buchstaben gewählt.")) :=
  ⟨by decide, by decide, by decide, by decide,
    c7_length_mismatch_frame hundList shortState hundWord (by decide) (by decide) (by decide)
      (by decide)⟩

/-- C8: the advance affordance only exists while the success popup is shown,
and every reachable state showing the popup is locked; hence in any
reachable unlocked state the advance event leaves the whole session state
unchanged. -/
theorem c8_advance_requires_lock (words : List Word) (s : SessionState)
    (hr : Reachable words s) (hl : s.isLocked = false) (cs : List Nat) :
    step words s (Op.clickNext cs) = s := by
  have hinv := reachable_sessionInv words s hr
  have hpop : s.showNextPopup = false := by
    cases hp : s.showNextPopup
    · rfl
    · have hlk := hinv.1 hp
      rw [hl] at hlk
      cases hlk
  show (if s.showNextPopup = true then
      (if (handleNext words s).currentIndex = s.currentIndex then handleNext words s
       else wordChangeEffect words cs (handleNext words s))
    else s) = s
  rw [hpop]
  simp

theorem c8_witness :
    Reachable hundList demoState ∧ demoState.isLocked = false ∧
    step hundList demoState (Op.clickNext [1, 2]) = demoState :=
  ⟨Reachable.init StoredCell.missing [], by decide,
    c8_advance_requires_lock hundList demoState (Reachable.init StoredCell.missing [])
      (by decide) [1, 2]⟩

/-- C9 counterexample: after completing the first word and advancing, the
Fisher-Yates pass that re-shuffles the new word's tiles can draw the
identity permutation, leaving the tile layout exactly equal to the target
spelling — reached here with the concrete draws `[3, 2, 1]`. -/
theorem c9_counterexample :
    Reachable wordsPair pairAdvanced ∧
    currentWord wordsPair pairAdvanced.currentIndex = some hundWord ∧
    pairAdvanced.shuffledLetters = hundWord.letters ∧
    String.join pairAdvanced.shuffledLetters = hundWord.word := by
  refine ⟨?_, by decide, by decide, by decide⟩
  exact Reachable.step (Op.clickNext [3, 2, 1])
    (Reachable.step Op.clickCheck
      (Reachable.step (Op.clickTile "a") (Reachable.init StoredCell.missing [])))

/-- C9 (amended): whenever the active word changes, the tile ordering is
regenerated by the Fisher-Yates pass over the word's letters, yielding a
permutation of them; no outcome of the random draws is excluded, so the
layout is not guaranteed to differ from the target spelling. -/
theorem c9_shuffle_regenerated (words : List Word) (cs : List Nat) (s : SessionState)
    (w : Word) (hcw : currentWord words s.currentIndex = some w) :
    (wordChangeEffect words cs s).shuffledLetters = shuffleArray cs w.letters ∧
    (wordChangeEffect words cs s).shuffledLetters.Perm w.letters := by
  have he : (wordChangeEffect words cs s).shuffledLetters = shuffleArray cs w.letters := by
    unfold wordChangeEffect
    simp only [hcw]
  exact ⟨he, he ▸ shuffleArray_perm cs w.letters⟩

theorem c9_witness :
    currentWord hundList demoState.currentIndex = some hundWord ∧
    ((wordChangeEffect hundList [0, 1] demoState).shuffledLetters
        = shuffleArray [0, 1] hundWord.letters ∧
      (wordChangeEffect hundList [0, 1] demoState).shuffledLetters.Perm hundWord.letters) :=
  ⟨by decide, c9_shuffle_regenerated hundList [0, 1] demoState hundWord (by decide)⟩

/-- C10: a pressed key is lowercased before matching — it is appended (in
lowercase form) exactly when its lowercase form is a single character in
the lowercased letter set — whereas a tile click appends the tile's
character exactly as it appears. -/
theorem c10_keyboard_lowercases (words : List Word) (s : SessionState) (w : Word)
    (key l : String)
    (hcw : currentWord words s.currentIndex = some w)
    (hlock : s.isLocked = false)
    (hroom : s.userInput.length < w.word.length)
    (hk1 : key ≠ "Backspace") (hk2 : key ≠ "Enter") (hk3 : key ≠ "Escape") :
    ((toLowerCase key).length = 1 → toLowerCase key ∈ w.letters.map toLowerCase →
      (step words s (Op.pressKey key)).userInput = s.userInput ++ [toLowerCase key]) ∧
    (¬ ((toLowerCase key).length = 1 ∧ toLowerCase key ∈ w.letters.map toLowerCase) →
      step words s (Op.pressKey key) = s) ∧
    (l ∈ s.shuffledLetters →
      (step words s (Op.clickTile l)).userInput = s.userInput ++ [l]) := by
  have hal : allowedLetters words s.currentIndex = w.letters.map toLowerCase := by
    unfold allowedLetters
    rw [hcw]
    rfl
  have happend : ∀ x, handleLetterClick words s x
      = { s with userInput := s.userInput ++ [x] } := by
    intro x
    unfold handleLetterClick
    simp only [hcw]
    rw [if_neg (by simp [hlock]), if_neg (not_le.mpr hroom)]
  refine ⟨?_, ?_, ?_⟩
  · intro h1 h2
    show (handleKeydown words s key).userInput = _
    unfold handleKeydown
    simp only [hcw]
    rw [if_neg hk1, if_neg hk2, if_neg hk3, if_pos ⟨h1, by rw [hal]; exact h2⟩, happend]
  · intro hneg
    show handleKeydown words s key = s
    unfold handleKeydown
    simp only [hcw]
    rw [if_neg hk1, if_neg hk2, if_neg hk3, if_neg (by rw [hal]; exact hneg)]
  · intro hmem
    show (if l ∈ s.shuffledLetters then handleLetterClick words s l else s).userInput = _
    rw [if_pos hmem, happend]

theorem c10_witness :
    currentWord [capWord] capState.currentIndex = some capWord ∧
    capState.isLocked = false ∧
    capState.userInput.length < capWord.word.length ∧
    ("H" : String) ≠ "Backspace" ∧ ("H" : String) ≠ "Enter" ∧ ("H" : String) ≠ "Escape" ∧
    (((toLowerCase "H").length = 1 → toLowerCase "H" ∈ capWord.letters.map toLowerCase →
        (step [capWord] capState (Op.pressKey "H")).userInput
          = capState.userInput ++ [toLowerCase "H"]) ∧
      (¬ ((toLowerCase "H").length = 1 ∧ toLowerCase "H" ∈ capWord.letters.map toLowerCase) →
        step [capWord] capState (Op.pressKey "H") = capState) ∧
      ("H" ∈ capState.shuffledLetters →
        (step [capWord] capState (Op.clickTile "H")).userInput
          = capState.userInput ++ ["H"])) :=
  ⟨by decide, by decide, by decide, by decide, by decide, by decide,
    c10_keyboard_lowercases [capWord] capState capWord "H" "H" (by decide) (by decide)
      (by decide) (by decide) (by decide) (by decide)⟩
